import Mathlib

/-!
Shallow embedding of `src/download_models.py`.

The script is a straight-line orchestrator:

  os.makedirs(DEST_DIR, exist_ok=True)
  for model_name in MODELS:
      print(f"Downloading {model_name}...")
      snapshot_download(repo_id=REPO_ID, allow_patterns=f"{model_name}/**",
                        local_dir=DEST_DIR, local_dir_use_symlinks=False)
      print(f"Successfully downloaded {model_name} to {DEST_DIR}")
  print("All models downloaded successfully.")

We embed it as a function from a configuration, an external-collaborator
oracle (modelling `snapshot_download`, whose internals are out of scope) and
an initial filesystem to a trace of observable events, a final filesystem
and a success flag.  A raised exception anywhere aborts the run with the
flag `false` (the script installs no handler, so any exception propagates).
-/

namespace DownloadModels

/-- A filesystem path, as a list of `/`-separated segments. -/
abbrev Path := List String

/-- Helper for `splitPath`: split a character list on `/`, accumulating the
current segment in reverse. -/
def splitSegs : List Char → List Char → List String
  | [], acc => [String.mk acc.reverse]
  | c :: rest, acc =>
    if c = '/' then String.mk acc.reverse :: splitSegs rest []
    else splitSegs rest (c :: acc)

/-- Split a path string on `/` into its segments. -/
def splitPath (s : String) : Path := splitSegs s.data []

/-- The nonempty prefixes of a path, shortest first: the chain of ancestor
directories `os.makedirs` creates, ending in the path itself. -/
def pathPrefixes : Path → List Path
  | [] => []
  | a :: rest => [a] :: (pathPrefixes rest).map (fun p => a :: p)

/-- A model filesystem: which paths exist as directories and which as
non-directory files.  Contents of files are irrelevant to the script. -/
structure FS where
  dirs : List Path
  files : List Path
deriving DecidableEq

/-- Embedding of `os.makedirs(path, exist_ok=True)`: create every missing
ancestor directory and the path itself; no error if the path already exists
as a directory; error (`none`) if the path or an ancestor exists as a
non-directory file. -/
def makedirs (fs : FS) (path : Path) : Option FS :=
  if (pathPrefixes path).any (fun p => fs.files.contains p) then none
  else some { fs with
    dirs := fs.dirs ++ (pathPrefixes path).filter (fun p => !fs.dirs.contains p) }

/-- `FS.le a b`: every path present in `a` is present in `b` (nothing was
deleted going from `a` to `b`). -/
def FS.le (a b : FS) : Prop := a.dirs ⊆ b.dirs ∧ a.files ⊆ b.files

/-- The observable events of a run. -/
inductive Step where
  | evMakedirs (path : Path)
  | evPrint (msg : String)
  | evDownload (repo_id : String) (allow_patterns : String) (local_dir : String)
      (local_dir_use_symlinks : Bool)
deriving DecidableEq

/-- The external retrieval collaborator (`snapshot_download`), modelled as an
oracle: the `k`-th call transforms the filesystem by `eff k` (it may write
files, including partial results on failure) and succeeds iff `ok k`. -/
structure Oracle where
  eff : Nat → FS → FS
  ok : Nat → Bool

/-- Message of `print(f"Downloading {model_name}...")`. -/
def startingMsg (name : String) : String := "Downloading " ++ (name ++ "...")

/-- Message of `print(f"Successfully downloaded {model_name} to {DEST_DIR}")`. -/
def completedMsg (name dest : String) : String :=
  "Successfully downloaded " ++ (name ++ (" to " ++ dest))

/-- Message of `print("All models downloaded successfully.")`. -/
def allDoneMsg : String := "All models downloaded successfully."

/-- Constant `REPO_ID` of the script. -/
def REPO_ID : String := "apple/coreml-mobileclip"

/-- Constant `MODELS` of the script. -/
def MODELS : List String := ["clip_text_s1.mlpackage", "clip_image_s1.mlpackage"]

/-- Constant `DEST_DIR` of the script. -/
def DEST_DIR : String := "MiniClone/Models"

/-- The configuration the script hard-codes (registry reference, artifact
list, destination directory), kept abstract so theorems quantify over it. -/
structure Config where
  repo_id : String
  models : List String
  dest_dir : String

/-- The script's own configuration. -/
def theConfig : Config := ⟨REPO_ID, MODELS, DEST_DIR⟩

/-- The `snapshot_download(...)` call event for one artifact: constant repo
id, pattern `f"{model_name}/**"`, destination directory, no symlinks. -/
def downloadCall (cfg : Config) (name : String) : Step :=
  Step.evDownload cfg.repo_id (name ++ "/**") cfg.dest_dir false

/-- The `for model_name in MODELS:` loop.  `k` is the index of the next
artifact (and of the next oracle call).  Returns the trace of events, the
final filesystem and whether the loop (plus the final print) completed. -/
def runLoop (cfg : Config) (o : Oracle) : List String → Nat → FS → List Step × FS × Bool
  | [], _, fs => ([Step.evPrint allDoneMsg], fs, true)
  | name :: rest, k, fs =>
    if o.ok k then
      let r := runLoop cfg o rest (k + 1) (o.eff k fs)
      (Step.evPrint (startingMsg name) :: downloadCall cfg name ::
        Step.evPrint (completedMsg name cfg.dest_dir) :: r.1, r.2.1, r.2.2)
    else
      ([Step.evPrint (startingMsg name), downloadCall cfg name], o.eff k fs, false)

/-- The whole script: `os.makedirs(DEST_DIR, exist_ok=True)` then the loop.
If directory creation raises, the run aborts before any loop iteration. -/
def run (cfg : Config) (o : Oracle) (fs0 : FS) : List Step × FS × Bool :=
  match makedirs fs0 (splitPath cfg.dest_dir) with
  | none => ([Step.evMakedirs (splitPath cfg.dest_dir)], fs0, false)
  | some fs1 =>
    let r := runLoop cfg o cfg.models 0 fs1
    (Step.evMakedirs (splitPath cfg.dest_dir) :: r.1, r.2.1, r.2.2)

/-- The print messages of a trace, in order. -/
def prints (tr : List Step) : List String :=
  tr.filterMap fun s => match s with
    | Step.evPrint m => some m
    | _ => none

/-- The retrieval-collaborator call events of a trace, in order. -/
def downloadCalls (tr : List Step) : List Step :=
  tr.filter fun s => match s with
    | Step.evDownload _ _ _ _ => true
    | _ => false

/-- Written from the spec's words (§8 order preservation): for a fully
successful run, one "starting" then one "completed" notification per
artifact, in list order, then the final "all done" notification. -/
def specNotifications (models : List String) (dest : String) : List String :=
  (models.map fun m => [startingMsg m, completedMsg m dest]).flatten ++ [allDoneMsg]

/-! ### Basic facts about the embedding -/

lemma data_append (s t : String) : (s ++ t).data = s.data ++ t.data := by
  cases s; cases t; rfl

lemma startingMsg_ne_allDoneMsg (m : String) : startingMsg m ≠ allDoneMsg := by
  intro h
  have h2 := congrArg String.data h
  rw [startingMsg, allDoneMsg, data_append] at h2
  have h3 := congrArg List.head? h2
  simp [List.head?_append] at h3

lemma completedMsg_ne_allDoneMsg (m d : String) : completedMsg m d ≠ allDoneMsg := by
  intro h
  have h2 := congrArg String.data h
  rw [completedMsg, allDoneMsg, data_append] at h2
  have h3 := congrArg List.head? h2
  simp [List.head?_append] at h3

lemma startingMsg_ne_completedMsg (m m' d : String) : startingMsg m ≠ completedMsg m' d := by
  intro h
  have h2 := congrArg String.data h
  rw [startingMsg, completedMsg, data_append, data_append] at h2
  have h3 := congrArg List.head? h2
  simp [List.head?_append] at h3

lemma completedMsg_inj (m m' d : String) (h : completedMsg m d = completedMsg m' d) :
    m = m' := by
  have h2 := congrArg String.data h
  rw [completedMsg, completedMsg, data_append, data_append, data_append, data_append] at h2
  have h4 := (List.append_inj h2 rfl).2
  have h5 := (List.append_inj' h4 rfl).1
  cases m; cases m'; exact congrArg String.mk (by simpa using h5)

lemma downloadCall_inj (cfg : Config) : Function.Injective (downloadCall cfg) := by
  intro m m' h
  rw [downloadCall, downloadCall] at h
  have h2 : m ++ "/**" = m' ++ "/**" := by simpa using h
  have h3 := congrArg String.data h2
  rw [data_append, data_append] at h3
  have h4 := (List.append_inj' h3 rfl).1
  cases m; cases m'; exact congrArg String.mk (by simpa using h4)

@[simp] lemma prints_nil : prints [] = [] := rfl

@[simp] lemma prints_cons_print (m : String) (tr : List Step) :
    prints (Step.evPrint m :: tr) = m :: prints tr := rfl

@[simp] lemma prints_cons_makedirs (p : Path) (tr : List Step) :
    prints (Step.evMakedirs p :: tr) = prints tr := rfl

@[simp] lemma prints_cons_download (r a l : String) (b : Bool) (tr : List Step) :
    prints (Step.evDownload r a l b :: tr) = prints tr := rfl

@[simp] lemma prints_cons_call (cfg : Config) (m : String) (tr : List Step) :
    prints (downloadCall cfg m :: tr) = prints tr := rfl

@[simp] lemma prints_append (t1 t2 : List Step) :
    prints (t1 ++ t2) = prints t1 ++ prints t2 := by
  simp [prints, List.filterMap_append]

@[simp] lemma downloadCalls_nil : downloadCalls [] = [] := rfl

@[simp] lemma downloadCalls_cons_print (m : String) (tr : List Step) :
    downloadCalls (Step.evPrint m :: tr) = downloadCalls tr := rfl

@[simp] lemma downloadCalls_cons_makedirs (p : Path) (tr : List Step) :
    downloadCalls (Step.evMakedirs p :: tr) = downloadCalls tr := rfl

@[simp] lemma downloadCalls_cons_download (r a l : String) (b : Bool) (tr : List Step) :
    downloadCalls (Step.evDownload r a l b :: tr) =
      Step.evDownload r a l b :: downloadCalls tr := rfl

@[simp] lemma downloadCalls_cons_call (cfg : Config) (m : String) (tr : List Step) :
    downloadCalls (downloadCall cfg m :: tr) = downloadCall cfg m :: downloadCalls tr := rfl

@[simp] lemma downloadCalls_append (t1 t2 : List Step) :
    downloadCalls (t1 ++ t2) = downloadCalls t1 ++ downloadCalls t2 := by
  simp [downloadCalls]


/-- The three trace events one successfully retrieved artifact contributes. -/
def block (cfg : Config) (m : String) : List Step :=
  [Step.evPrint (startingMsg m), downloadCall cfg m,
   Step.evPrint (completedMsg m cfg.dest_dir)]

lemma runLoop_allOk (cfg : Config) (o : Oracle) (ms : List String) (k : Nat) (fs : FS)
    (h : ∀ i, i < ms.length → o.ok (k + i) = true) :
    (runLoop cfg o ms k fs).1 = (ms.map (block cfg)).flatten ++ [Step.evPrint allDoneMsg] ∧
      (runLoop cfg o ms k fs).2.2 = true := by
  induction ms generalizing k fs with
  | nil => simp [runLoop]
  | cons name rest ih =>
    have hk : o.ok k = true := by simpa using h 0 (by simp)
    have hrest : ∀ i, i < rest.length → o.ok (k + 1 + i) = true := by
      intro i hi
      have hx : k + 1 + i = k + (i + 1) := by omega
      rw [hx]
      exact h (i + 1) (by simpa using Nat.succ_lt_succ hi)
    have := ih (k + 1) (o.eff k fs) hrest
    constructor
    · rw [runLoop]
      simp [hk, block, this.1]
    · rw [runLoop]
      simp [hk, this.2]

lemma runLoop_fail (cfg : Config) (o : Oracle) (ms : List String) (k : Nat) (fs : FS)
    (A : Nat) (hA : A < ms.length)
    (hpre : ∀ i, i < A → o.ok (k + i) = true)
    (hfail : o.ok (k + A) = false) :
    (runLoop cfg o ms k fs).1 =
      ((ms.take A).map (block cfg)).flatten ++
        [Step.evPrint (startingMsg (ms.get ⟨A, hA⟩)), downloadCall cfg (ms.get ⟨A, hA⟩)] ∧
      (runLoop cfg o ms k fs).2.2 = false := by
  induction ms generalizing k A fs with
  | nil => exact absurd hA (by simp)
  | cons name rest ih =>
    cases A with
    | zero =>
      have hk : o.ok k = false := by simpa using hfail
      rw [runLoop]
      simp [hk]
    | succ A' =>
      have hk : o.ok k = true := by simpa using hpre 0 (by simp)
      have hA' : A' < rest.length := by simpa using hA
      have hpre' : ∀ i, i < A' → o.ok (k + 1 + i) = true := by
        intro i hi
        have hx : k + 1 + i = k + (i + 1) := by omega
        rw [hx]
        exact hpre (i + 1) (by simpa using Nat.succ_lt_succ hi)
      have hfail' : o.ok (k + 1 + A') = false := by
        have hx : k + 1 + A' = k + (A' + 1) := by omega
        rw [hx]; exact hfail
      have := ih (k + 1) (o.eff k fs) A' hA' hpre' hfail'
      constructor
      · rw [runLoop]
        simp [hk, this.1, block, List.map_take]
      · rw [runLoop]
        simp [hk, this.2]

lemma runLoop_ok_iff (cfg : Config) (o : Oracle) (ms : List String) (k : Nat) (fs : FS) :
    (runLoop cfg o ms k fs).2.2 = true ↔ ∀ i, i < ms.length → o.ok (k + i) = true := by
  induction ms generalizing k fs with
  | nil => simp [runLoop]
  | cons name rest ih =>
    by_cases hk : o.ok k = true
    · rw [runLoop]
      simp only [hk, if_true]
      rw [ih (k + 1) (o.eff k fs)]
      constructor
      · intro hr i hi
        cases i with
        | zero => simpa using hk
        | succ i' =>
          have hx : k + (i' + 1) = k + 1 + i' := by omega
          rw [hx]
          exact hr i' (by simpa using hi)
      · intro hall i hi
        have hx : k + 1 + i = k + (i + 1) := by omega
        rw [hx]
        exact hall (i + 1) (by simpa using Nat.succ_lt_succ hi)
    · have hk' : o.ok k = false := by simpa using hk
      rw [runLoop]
      simp only [hk', Bool.false_eq_true, if_false]
      constructor
      · intro h
        exact absurd h (by simp)
      · intro hall
        have h0 := hall 0 (by simp)
        rw [Nat.add_zero] at h0
        rw [h0] at hk'
        exact absurd hk' (by simp)


lemma FS.le_refl (fs : FS) : FS.le fs fs := ⟨fun _ h => h, fun _ h => h⟩

lemma FS.le_trans {a b c : FS} (h1 : FS.le a b) (h2 : FS.le b c) : FS.le a c :=
  ⟨fun _ h => h2.1 (h1.1 h), fun _ h => h2.2 (h1.2 h)⟩

lemma makedirs_le (fs : FS) (p : Path) (fs' : FS) (h : makedirs fs p = some fs') :
    FS.le fs fs' := by
  rw [makedirs] at h
  split at h
  · exact absurd h (by simp)
  · have heq := Option.some.inj h
    subst heq
    exact ⟨List.subset_append_left _ _, fun _ hx => hx⟩

lemma makedirs_prefixes_mem (fs : FS) (p : Path) (fs' : FS)
    (h : makedirs fs p = some fs') : ∀ q ∈ pathPrefixes p, q ∈ fs'.dirs := by
  rw [makedirs] at h
  split at h
  · exact absurd h (by simp)
  · have heq := Option.some.inj h
    subst heq
    intro q hq
    by_cases hmem : q ∈ fs.dirs
    · exact List.mem_append_left _ hmem
    · refine List.mem_append_right _ ?_
      rw [List.mem_filter]
      refine ⟨hq, ?_⟩
      simp [hmem]

lemma makedirs_files_eq (fs : FS) (p : Path) (fs' : FS)
    (h : makedirs fs p = some fs') : fs'.files = fs.files := by
  rw [makedirs] at h
  split at h
  · exact absurd h (by simp)
  · have heq := Option.some.inj h
    subst heq
    rfl

lemma makedirs_idem (fs : FS) (p : Path) (fs' : FS) (h : makedirs fs p = some fs') :
    makedirs fs' p = some fs' := by
  have hdirs := makedirs_prefixes_mem fs p fs' h
  have hfiles := makedirs_files_eq fs p fs' h
  have hguard : ((pathPrefixes p).any fun q => fs.files.contains q) = false := by
    rw [makedirs] at h
    split at h
    · exact absurd h (by simp)
    · next hg => simpa using hg
  rw [makedirs, hfiles, hguard]
  simp only [Bool.false_eq_true, if_false]
  have hfilter : ((pathPrefixes p).filter fun q => !fs'.dirs.contains q) = [] := by
    rw [List.filter_eq_nil_iff]
    intro q hq
    simp [hdirs q hq]
  rw [hfilter]
  simp only [List.append_nil, Option.some.injEq]
  rw [← hfiles]

lemma runLoop_le (cfg : Config) (o : Oracle) (hmono : ∀ i fs, FS.le fs (o.eff i fs))
    (ms : List String) (k : Nat) (fs : FS) :
    FS.le fs (runLoop cfg o ms k fs).2.1 := by
  induction ms generalizing k fs with
  | nil => exact FS.le_refl fs
  | cons name rest ih =>
    by_cases hk : o.ok k = true
    · rw [runLoop]
      simp only [hk, if_true]
      exact FS.le_trans (hmono k fs) (ih (k + 1) (o.eff k fs))
    · have hk' : o.ok k = false := by simpa using hk
      rw [runLoop]
      simp only [hk', Bool.false_eq_true, if_false]
      exact hmono k fs

lemma runLoop_present (cfg : Config) (o : Oracle)
    (hmono : ∀ i fs, FS.le fs (o.eff i fs))
    (ms : List String) (k : Nat) (fs : FS)
    (i : Nat) (hi : i < ms.length)
    (hexec : ∀ j, j < i → o.ok (k + j) = true)
    (hoki : o.ok (k + i) = true)
    (p : Path)
    (hmat : ∀ fs', p ∈ (o.eff (k + i) fs').dirs) :
    p ∈ (runLoop cfg o ms k fs).2.1.dirs := by
  induction ms generalizing k i fs with
  | nil => exact absurd hi (by simp)
  | cons name rest ih =>
    cases i with
    | zero =>
      have hk : o.ok k = true := by simpa using hoki
      rw [runLoop]
      simp only [hk, if_true]
      exact (runLoop_le cfg o hmono rest (k + 1) (o.eff k fs)).1 (by simpa using hmat fs)
    | succ i' =>
      have hk : o.ok k = true := by simpa using hexec 0 (by simp)
      have hexec' : ∀ j, j < i' → o.ok (k + 1 + j) = true := by
        intro j hj
        have hx : k + 1 + j = k + (j + 1) := by omega
        rw [hx]
        exact hexec (j + 1) (by simpa using Nat.succ_lt_succ hj)
      have hoki' : o.ok (k + 1 + i') = true := by
        have hx : k + 1 + i' = k + (i' + 1) := by omega
        rw [hx]; exact hoki
      have hmat' : ∀ fs', p ∈ (o.eff (k + 1 + i') fs').dirs := by
        intro fs'
        have hx : k + 1 + i' = k + (i' + 1) := by omega
        rw [hx]; exact hmat fs'
      rw [runLoop]
      simp only [hk, if_true]
      exact ih (k + 1) (o.eff k fs) i' (by simpa using hi) hexec' hoki' hmat'

lemma splitSegs_ne_nil (cs : List Char) (acc : List Char) : splitSegs cs acc ≠ [] := by
  induction cs generalizing acc with
  | nil => simp [splitSegs]
  | cons c rest ih =>
    rw [splitSegs]
    by_cases hc : c = '/'
    · simp [hc]
    · simpa [hc] using ih (c :: acc)

lemma splitPath_ne_nil (s : String) : splitPath s ≠ [] := splitSegs_ne_nil s.data []

lemma pathPrefixes_self (p : Path) (hp : p ≠ []) : p ∈ pathPrefixes p := by
  induction p with
  | nil => exact absurd rfl hp
  | cons a rest ih =>
    rw [pathPrefixes]
    cases rest with
    | nil => simp [pathPrefixes]
    | cons b r =>
      exact List.mem_cons_of_mem _ (List.mem_map_of_mem _ (ih (by simp)))

lemma runLoop_calls_subset (cfg : Config) (o : Oracle) (ms : List String) (k : Nat)
    (fs : FS) :
    downloadCalls (runLoop cfg o ms k fs).1 ⊆ ms.map (downloadCall cfg) := by
  induction ms generalizing k fs with
  | nil =>
    rw [runLoop]
    simp
  | cons name rest ih =>
    by_cases hk : o.ok k = true
    · rw [runLoop]
      simp only [hk, if_true, downloadCalls_cons_print, downloadCalls_cons_call,
        List.map_cons]
      exact List.cons_subset_cons _ (ih (k + 1) (o.eff k fs))
    · have hk' : o.ok k = false := by simpa using hk
      rw [runLoop]
      simp only [hk', Bool.false_eq_true, if_false, downloadCalls_cons_print,
        downloadCalls_cons_call, downloadCalls_nil, List.map_cons]
      intro x hx
      rw [List.mem_singleton] at hx
      subst hx
      exact List.mem_cons_self _ _

lemma prints_blocks (cfg : Config) (ms : List String) :
    prints ((ms.map (block cfg)).flatten) =
      (ms.map fun m => [startingMsg m, completedMsg m cfg.dest_dir]).flatten := by
  induction ms with
  | nil => simp
  | cons m rest ih => simp [block, ih]

lemma downloadCalls_blocks (cfg : Config) (ms : List String) :
    downloadCalls ((ms.map (block cfg)).flatten) = ms.map (downloadCall cfg) := by
  induction ms with
  | nil => simp
  | cons m rest ih => simp [block, ih]

lemma allDoneMsg_not_mem_pairs (ms : List String) (d : String) :
    allDoneMsg ∉ (ms.map fun m => [startingMsg m, completedMsg m d]).flatten := by
  intro hmem
  rw [List.mem_flatten] at hmem
  obtain ⟨l, hl, hin⟩ := hmem
  rw [List.mem_map] at hl
  obtain ⟨m, _, rfl⟩ := hl
  rw [List.mem_cons, List.mem_singleton] at hin
  cases hin with
  | inl hx => exact startingMsg_ne_allDoneMsg m hx.symm
  | inr hx => exact completedMsg_ne_allDoneMsg m d hx.symm

lemma exists_least_fail (o : Oracle) (n : Nat)
    (h : ¬ ∀ i, i < n → o.ok i = true) :
    ∃ A, A < n ∧ (∀ j, j < A → o.ok j = true) ∧ o.ok A = false := by
  push_neg at h
  obtain ⟨i0, hi0, hne⟩ := h
  have hi0f : o.ok i0 = false := by
    cases hok : o.ok i0
    · rfl
    · exact absurd hok hne
  have hP : ∃ i, o.ok i = false := ⟨i0, hi0f⟩
  refine ⟨Nat.find hP, lt_of_le_of_lt (Nat.find_min' hP hi0f) hi0, ?_, Nat.find_spec hP⟩
  intro j hj
  have hmin := Nat.find_min hP hj
  cases hok : o.ok j
  · exact absurd hok hmin
  · rfl


lemma run_prints_allOk (cfg : Config) (o : Oracle) (fs0 fs1 : FS)
    (hmk : makedirs fs0 (splitPath cfg.dest_dir) = some fs1)
    (hok : ∀ i, i < cfg.models.length → o.ok i = true) :
    prints (run cfg o fs0).1 = specNotifications cfg.models cfg.dest_dir := by
  have hok0 : ∀ i, i < cfg.models.length → o.ok (0 + i) = true := by
    intro i hi; rw [Nat.zero_add]; exact hok i hi
  have hh := runLoop_allOk cfg o cfg.models 0 fs1 hok0
  simp [run, hmk, hh.1, specNotifications, prints_blocks]

lemma run_calls_allOk (cfg : Config) (o : Oracle) (fs0 fs1 : FS)
    (hmk : makedirs fs0 (splitPath cfg.dest_dir) = some fs1)
    (hok : ∀ i, i < cfg.models.length → o.ok i = true) :
    downloadCalls (run cfg o fs0).1 = cfg.models.map (downloadCall cfg) := by
  have hok0 : ∀ i, i < cfg.models.length → o.ok (0 + i) = true := by
    intro i hi; rw [Nat.zero_add]; exact hok i hi
  have hh := runLoop_allOk cfg o cfg.models 0 fs1 hok0
  simp [run, hmk, hh.1, downloadCalls_blocks]

lemma run_prints_fail (cfg : Config) (o : Oracle) (fs0 fs1 : FS) (A : Nat)
    (hmk : makedirs fs0 (splitPath cfg.dest_dir) = some fs1)
    (hA : A < cfg.models.length)
    (hpre : ∀ i, i < A → o.ok i = true)
    (hfail : o.ok A = false) :
    prints (run cfg o fs0).1 =
      ((cfg.models.take A).map fun m => [startingMsg m, completedMsg m cfg.dest_dir]).flatten
        ++ [startingMsg (cfg.models.get ⟨A, hA⟩)] := by
  have hpre0 : ∀ i, i < A → o.ok (0 + i) = true := by
    intro i hi; rw [Nat.zero_add]; exact hpre i hi
  have hfail0 : o.ok (0 + A) = false := by rw [Nat.zero_add]; exact hfail
  have hh := runLoop_fail cfg o cfg.models 0 fs1 A hA hpre0 hfail0
  have hbase : prints (run cfg o fs0).1 = prints (runLoop cfg o cfg.models 0 fs1).1 := by
    simp [run, hmk]
  rw [hbase, hh.1, prints_append, prints_blocks]
  simp

lemma run_calls_fail (cfg : Config) (o : Oracle) (fs0 fs1 : FS) (A : Nat)
    (hmk : makedirs fs0 (splitPath cfg.dest_dir) = some fs1)
    (hA : A < cfg.models.length)
    (hpre : ∀ i, i < A → o.ok i = true)
    (hfail : o.ok A = false) :
    downloadCalls (run cfg o fs0).1 = (cfg.models.take (A + 1)).map (downloadCall cfg) := by
  have hpre0 : ∀ i, i < A → o.ok (0 + i) = true := by
    intro i hi; rw [Nat.zero_add]; exact hpre i hi
  have hfail0 : o.ok (0 + A) = false := by rw [Nat.zero_add]; exact hfail
  have hh := runLoop_fail cfg o cfg.models 0 fs1 A hA hpre0 hfail0
  have htake : cfg.models.take (A + 1) =
      cfg.models.take A ++ [cfg.models.get ⟨A, hA⟩] := by
    rw [List.take_succ, List.getElem?_eq_getElem hA]
    simp
  have hbase : downloadCalls (run cfg o fs0).1 =
      downloadCalls (runLoop cfg o cfg.models 0 fs1).1 := by
    simp [run, hmk]
  rw [hbase, hh.1, downloadCalls_append, downloadCalls_blocks, htake, List.map_append]
  simp

lemma run_ok_iff (cfg : Config) (o : Oracle) (fs0 : FS) :
    (run cfg o fs0).2.2 = true ↔
      (∃ fs1, makedirs fs0 (splitPath cfg.dest_dir) = some fs1) ∧
        ∀ i, i < cfg.models.length → o.ok i = true := by
  cases hmk : makedirs fs0 (splitPath cfg.dest_dir) with
  | none => simp [run, hmk]
  | some fs1 =>
    have hbase : (run cfg o fs0).2.2 = (runLoop cfg o cfg.models 0 fs1).2.2 := by
      simp [run, hmk]
    rw [hbase, runLoop_ok_iff]
    constructor
    · intro hall
      refine ⟨⟨fs1, rfl⟩, ?_⟩
      intro i hi
      have := hall i hi
      rwa [Nat.zero_add] at this
    · intro hrhs i hi
      rw [Nat.zero_add]
      exact hrhs.2 i hi


/-! ### Concrete inputs used by the witnesses -/

/-- A collaborator that always succeeds and writes nothing. -/
def okTrue : Oracle := ⟨fun _ fs => fs, fun _ => true⟩

/-- The empty initial filesystem. -/
def fs0Empty : FS := ⟨[], []⟩

/-- The filesystem after `os.makedirs("MiniClone/Models")` on an empty one. -/
def fsAfterMk : FS := ⟨[["MiniClone"], ["MiniClone", "Models"]], []⟩

/-- An initial filesystem where the path segment `MiniClone` is an existing
non-directory file, so `os.makedirs` fails. -/
def fs0Blocked : FS := ⟨[], [["MiniClone"]]⟩

/-- An initial filesystem with a pre-existing unrelated directory and file. -/
def fs0Pre : FS := ⟨[["keep"]], [["notes.txt"]]⟩

/-- `fs0Pre` after `os.makedirs("MiniClone/Models")`. -/
def fsPreAfterMk : FS :=
  ⟨[["keep"], ["MiniClone"], ["MiniClone", "Models"]], [["notes.txt"]]⟩

/-- A collaborator that materialises artifact `i` as a subdirectory of the
destination on each call, succeeding only on the first call. -/
def matOracle : Oracle :=
  ⟨fun i fs => ⟨fs.dirs ++ [splitPath DEST_DIR ++ [ MODELS.getD i ""]], fs.files⟩,
   fun i => i == 0⟩

/-- The script's configuration with an empty artifact list. -/
def emptyConfig : Config := ⟨REPO_ID, [], DEST_DIR⟩

/-- A configuration whose artifact list repeats one name. -/
def dupConfig : Config := ⟨REPO_ID, ["a.mlpackage", "a.mlpackage"], DEST_DIR⟩

/-! ### The claims -/

/-- C1: when directory creation succeeds and every retrieval succeeds, the
run's notifications are exactly the spec's: for each artifact in list order
one "starting" notification then one "completed" notification naming the
artifact and the destination, with no interleaving, then "all done". -/
theorem notifications_in_order (cfg : Config) (o : Oracle) (fs0 fs1 : FS)
    (hmk : makedirs fs0 (splitPath cfg.dest_dir) = some fs1)
    (hok : ∀ i, i < cfg.models.length → o.ok i = true) :
    prints (run cfg o fs0).1 = specNotifications cfg.models cfg.dest_dir :=
  run_prints_allOk cfg o fs0 fs1 hmk hok

/-- Witness for C1: the script's own configuration, an always-succeeding
collaborator and an empty filesystem. -/
theorem notifications_in_order_witness :
    prints (run theConfig okTrue fs0Empty).1 = specNotifications MODELS DEST_DIR :=
  notifications_in_order theConfig okTrue fs0Empty fsAfterMk (by decide) (fun _ _ => rfl)

/-- C2: the "all done" notification is emitted iff every artifact completed
its retrieval successfully, i.e. iff directory creation succeeded and every
indexed retrieval in the list succeeded. -/
theorem allDone_iff_all_completed (cfg : Config) (o : Oracle) (fs0 : FS) :
    allDoneMsg ∈ prints (run cfg o fs0).1 ↔
      (∃ fs1, makedirs fs0 (splitPath cfg.dest_dir) = some fs1) ∧
        ∀ i, i < cfg.models.length → o.ok i = true := by
  cases hmk : makedirs fs0 (splitPath cfg.dest_dir) with
  | none => simp [run, hmk]
  | some fs1 =>
    by_cases hall : ∀ i, i < cfg.models.length → o.ok i = true
    · rw [run_prints_allOk cfg o fs0 fs1 hmk hall]
      simp only [specNotifications, List.mem_append, List.mem_singleton]
      constructor
      · intro _
        exact ⟨⟨fs1, rfl⟩, hall⟩
      · intro _
        exact Or.inr trivial
    · obtain ⟨A, hA, hpre, hfail⟩ := exists_least_fail o cfg.models.length hall
      rw [run_prints_fail cfg o fs0 fs1 A hmk hA hpre hfail]
      constructor
      · intro hmem
        rw [List.mem_append] at hmem
        cases hmem with
        | inl hx => exact absurd hx (allDoneMsg_not_mem_pairs _ _)
        | inr hx =>
          rw [List.mem_singleton] at hx
          exact absurd hx.symm (startingMsg_ne_allDoneMsg _)
      · intro hrhs
        exact absurd hrhs.2 hall

/-- C3: when retrieval fails at position A after the earlier positions all
succeed, the failure propagates (the run ends unsuccessfully), the
notifications stop at A's "starting" (so no later artifact gets a "starting"),
only the first A+1 artifacts are ever delegated, and — for a collaborator that
never removes paths and that materialises each artifact it retrieves — the
artifacts before A are still present on disk at the end of the run. -/
theorem fail_aborts_run (cfg : Config) (o : Oracle) (fs0 fs1 : FS) (A : Nat)
    (hmk : makedirs fs0 (splitPath cfg.dest_dir) = some fs1)
    (hA : A < cfg.models.length)
    (hpre : ∀ i, i < A → o.ok i = true)
    (hfail : o.ok A = false)
    (hmono : ∀ i fs, FS.le fs (o.eff i fs))
    (hmat : ∀ i, i < cfg.models.length → ∀ fs, o.ok i = true →
      splitPath cfg.dest_dir ++ [cfg.models.getD i ""] ∈ (o.eff i fs).dirs) :
    (run cfg o fs0).2.2 = false ∧
    prints (run cfg o fs0).1 =
      ((cfg.models.take A).map fun m => [startingMsg m, completedMsg m cfg.dest_dir]).flatten
        ++ [startingMsg (cfg.models.get ⟨A, hA⟩)] ∧
    downloadCalls (run cfg o fs0).1 = (cfg.models.take (A + 1)).map (downloadCall cfg) ∧
    ∀ i, i < A →
      splitPath cfg.dest_dir ++ [cfg.models.getD i ""] ∈ (run cfg o fs0).2.1.dirs := by
  have hpre0 : ∀ i, i < A → o.ok (0 + i) = true := by
    intro i hi; rw [Nat.zero_add]; exact hpre i hi
  have hfail0 : o.ok (0 + A) = false := by rw [Nat.zero_add]; exact hfail
  have hh := runLoop_fail cfg o cfg.models 0 fs1 A hA hpre0 hfail0
  refine ⟨?_, run_prints_fail cfg o fs0 fs1 A hmk hA hpre hfail,
    run_calls_fail cfg o fs0 fs1 A hmk hA hpre hfail, ?_⟩
  · simp [run, hmk, hh.2]
  · intro i hi
    have hilen : i < cfg.models.length := lt_trans hi hA
    have hfs : (run cfg o fs0).2.1 = (runLoop cfg o cfg.models 0 fs1).2.1 := by
      simp [run, hmk]
    rw [hfs]
    refine runLoop_present cfg o hmono cfg.models 0 fs1 i hilen ?_ ?_ _ ?_
    · intro j hj
      rw [Nat.zero_add]
      exact hpre j (lt_trans hj hi)
    · rw [Nat.zero_add]
      exact hpre i hi
    · intro fs'
      rw [Nat.zero_add]
      exact hmat i hilen fs' (hpre i hi)

/-- Witness for C3: the script's configuration, a collaborator that succeeds
on the first artifact and fails on the second; the run fails and the first
artifact's directory is present at the end. -/
theorem fail_aborts_run_witness :
    (run theConfig matOracle fs0Empty).2.2 = false ∧
      splitPath DEST_DIR ++ [ MODELS.getD 0 ""] ∈
        (run theConfig matOracle fs0Empty).2.1.dirs := by
  have hmono : ∀ i fs, FS.le fs (matOracle.eff i fs) :=
    fun _ fs => ⟨List.subset_append_left _ _, fun _ h => h⟩
  have hmat : ∀ i, i < theConfig.models.length → ∀ fs, matOracle.ok i = true →
      splitPath theConfig.dest_dir ++ [theConfig.models.getD i ""] ∈
        (matOracle.eff i fs).dirs := by
    intro i _ fs _
    simp [matOracle, theConfig]
  have hh := fail_aborts_run theConfig matOracle fs0Empty fsAfterMk 1 (by decide)
    (by decide) (by decide) (by decide) hmono hmat
  exact ⟨hh.1, hh.2.2.2 0 (by decide)⟩

/-- C4: every event delegated to the retrieval collaborator carries exactly
the constant registry reference, the subtree filter `name ++ "/**"` for a
listed artifact name, the destination directory, and symlinks disabled; and
on a fully successful run every listed artifact receives such a call. -/
theorem calls_have_exact_args (cfg : Config) (o : Oracle) (fs0 : FS) :
    (∀ e ∈ downloadCalls (run cfg o fs0).1,
        ∃ m ∈ cfg.models,
          e = Step.evDownload cfg.repo_id (m ++ "/**") cfg.dest_dir false) ∧
    (∀ fs1, makedirs fs0 (splitPath cfg.dest_dir) = some fs1 →
      (∀ i, i < cfg.models.length → o.ok i = true) →
      ∀ m ∈ cfg.models,
        Step.evDownload cfg.repo_id (m ++ "/**") cfg.dest_dir false ∈
          downloadCalls (run cfg o fs0).1) := by
  constructor
  · intro e he
    cases hmk : makedirs fs0 (splitPath cfg.dest_dir) with
    | none => simp [run, hmk] at he
    | some fs1 =>
      have hbase : downloadCalls (run cfg o fs0).1 =
          downloadCalls (runLoop cfg o cfg.models 0 fs1).1 := by
        simp [run, hmk]
      rw [hbase] at he
      have hmem := runLoop_calls_subset cfg o cfg.models 0 fs1 he
      rw [List.mem_map] at hmem
      obtain ⟨m, hm, rfl⟩ := hmem
      exact ⟨m, hm, rfl⟩
  · intro fs1 hmk hok m hm
    rw [run_calls_allOk cfg o fs0 fs1 hmk hok, List.mem_map]
    exact ⟨m, hm, rfl⟩

/-- Witness for C4: on the script's configuration with an always-succeeding
collaborator, the text encoder's exact call event occurs in the trace. -/
theorem calls_have_exact_args_witness :
    Step.evDownload REPO_ID ("clip_text_s1.mlpackage" ++ "/**") DEST_DIR false ∈
      downloadCalls (run theConfig okTrue fs0Empty).1 :=
  (calls_have_exact_args theConfig okTrue fs0Empty).2 fsAfterMk (by decide)
    (fun _ _ => rfl) "clip_text_s1.mlpackage" (by decide)

/-- C5: directory creation is idempotent: a successful
`os.makedirs(path, exist_ok=True)` has made the path and all its missing
ancestors directories, and running it again on the result is a no-op that
raises no error. -/
theorem makedirs_idempotent (fs : FS) (p : Path) (fs' : FS)
    (h : makedirs fs p = some fs') :
    (∀ q ∈ pathPrefixes p, q ∈ fs'.dirs) ∧ makedirs fs' p = some fs' :=
  ⟨makedirs_prefixes_mem fs p fs' h, makedirs_idem fs p fs' h⟩

/-- Witness for C5: creating `MiniClone/Models` on an empty filesystem and
then creating it again succeeds without change. -/
theorem makedirs_idempotent_witness :
    makedirs fsAfterMk (splitPath DEST_DIR) = some fsAfterMk :=
  (makedirs_idempotent fs0Empty (splitPath DEST_DIR) fsAfterMk (by decide)).2

/-- C6: if directory creation fails, the run aborts immediately: no retrieval
call, no notification, and an unsuccessful exit. -/
theorem mkdir_failure_aborts (cfg : Config) (o : Oracle) (fs0 : FS)
    (h : makedirs fs0 (splitPath cfg.dest_dir) = none) :
    downloadCalls (run cfg o fs0).1 = [] ∧ prints (run cfg o fs0).1 = [] ∧
      (run cfg o fs0).2.2 = false := by
  simp [run, h]

/-- Witness for C6: a file named `MiniClone` blocks directory creation. -/
theorem mkdir_failure_aborts_witness :
    downloadCalls (run theConfig okTrue fs0Blocked).1 = [] ∧
      prints (run theConfig okTrue fs0Blocked).1 = [] ∧
      (run theConfig okTrue fs0Blocked).2.2 = false :=
  mkdir_failure_aborts theConfig okTrue fs0Blocked (by decide)

/-- C7: each artifact is retrieved at most once per run (for the duplicate-
free configured list, no collaborator call event repeats), and no failure is
caught internally: the run fails exactly when directory creation fails or
some retrieval within the list fails. -/
theorem at_most_once_and_propagation (cfg : Config) (o : Oracle) (fs0 : FS) :
    (cfg.models.Nodup → ∀ c : Step, (downloadCalls (run cfg o fs0).1).count c ≤ 1) ∧
    ((run cfg o fs0).2.2 = false ↔
      makedirs fs0 (splitPath cfg.dest_dir) = none ∨
        ∃ i, i < cfg.models.length ∧ o.ok i = false) := by
  constructor
  · intro hnd c
    cases hmk : makedirs fs0 (splitPath cfg.dest_dir) with
    | none => simp [run, hmk]
    | some fs1 =>
      by_cases hall : ∀ i, i < cfg.models.length → o.ok i = true
      · rw [run_calls_allOk cfg o fs0 fs1 hmk hall]
        have hnodup : (cfg.models.map (downloadCall cfg)).Nodup :=
          hnd.map (downloadCall_inj cfg)
        exact List.nodup_iff_count_le_one.mp hnodup c
      · obtain ⟨A, hA, hpre, hfail⟩ := exists_least_fail o cfg.models.length hall
        rw [run_calls_fail cfg o fs0 fs1 A hmk hA hpre hfail]
        have htk : (cfg.models.take (A + 1)).Nodup :=
          hnd.sublist (List.take_sublist _ _)
        have hnodup : ((cfg.models.take (A + 1)).map (downloadCall cfg)).Nodup :=
          htk.map (downloadCall_inj cfg)
        exact List.nodup_iff_count_le_one.mp hnodup c
  · have hflag := run_ok_iff cfg o fs0
    constructor
    · intro hfalse
      by_contra hcon
      rw [not_or] at hcon
      obtain ⟨hmk', hex'⟩ := hcon
      have hsome : ∃ fs1, makedirs fs0 (splitPath cfg.dest_dir) = some fs1 := by
        cases hval : makedirs fs0 (splitPath cfg.dest_dir) with
        | none => exact absurd hval hmk'
        | some fs1 => exact ⟨fs1, rfl⟩
      have hall : ∀ i, i < cfg.models.length → o.ok i = true := by
        intro i hi
        cases hok : o.ok i
        · exact absurd ⟨i, hi, hok⟩ hex'
        · rfl
      have := hflag.mpr ⟨hsome, hall⟩
      rw [this] at hfalse
      exact absurd hfalse (by simp)
    · intro hcases
      cases hok : (run cfg o fs0).2.2
      · rfl
      · exfalso
        obtain ⟨hsome, hall⟩ := hflag.mp hok
        cases hcases with
        | inl hnone =>
          obtain ⟨fs1, hfs1⟩ := hsome
          rw [hfs1] at hnone
          exact absurd hnone (by simp)
        | inr hex =>
          obtain ⟨i, hi, hfi⟩ := hex
          have := hall i hi
          rw [this] at hfi
          exact absurd hfi (by simp)

/-- Witness for C7: on the script's duplicate-free configuration every call
event occurs at most once. -/
theorem at_most_once_and_propagation_witness :
    (downloadCalls (run theConfig okTrue fs0Empty).1).count
      (Step.evDownload REPO_ID ("clip_text_s1.mlpackage" ++ "/**") DEST_DIR false) ≤ 1 :=
  (at_most_once_and_propagation theConfig okTrue fs0Empty).1 (by decide) _

/-- C8: the orchestrator deletes nothing: for a collaborator that never
removes paths, every directory and file present before the run is still
present after it, and the destination directory created in step 1 is present
when the run ends. -/
theorem nothing_deleted (cfg : Config) (o : Oracle) (fs0 fs1 : FS)
    (hmono : ∀ i fs, FS.le fs (o.eff i fs))
    (hmk : makedirs fs0 (splitPath cfg.dest_dir) = some fs1) :
    FS.le fs0 (run cfg o fs0).2.1 ∧
      splitPath cfg.dest_dir ∈ (run cfg o fs0).2.1.dirs := by
  have hle1 := makedirs_le fs0 _ fs1 hmk
  have hle2 := runLoop_le cfg o hmono cfg.models 0 fs1
  have hrun : (run cfg o fs0).2.1 = (runLoop cfg o cfg.models 0 fs1).2.1 := by
    simp [run, hmk]
  constructor
  · rw [hrun]
    exact FS.le_trans hle1 hle2
  · rw [hrun]
    exact hle2.1
      (makedirs_prefixes_mem fs0 _ fs1 hmk _ (pathPrefixes_self _ (splitPath_ne_nil _)))

/-- Witness for C8: pre-existing unrelated paths survive a full run. -/
theorem nothing_deleted_witness :
    FS.le fs0Pre (run theConfig okTrue fs0Pre).2.1 ∧
      splitPath DEST_DIR ∈ (run theConfig okTrue fs0Pre).2.1.dirs :=
  nothing_deleted theConfig okTrue fs0Pre fsPreAfterMk
    (fun _ fs => FS.le_refl fs) (by decide)

/-- C9: with an empty artifact list the run still creates the destination
directory, performs no retrieval call, emits no per-artifact notification,
and emits the final "all done" notification, ending successfully. -/
theorem empty_list_run (cfg : Config) (o : Oracle) (fs0 fs1 : FS)
    (hms : cfg.models = [])
    (hmk : makedirs fs0 (splitPath cfg.dest_dir) = some fs1) :
    run cfg o fs0 =
      ([Step.evMakedirs (splitPath cfg.dest_dir), Step.evPrint allDoneMsg], fs1, true) := by
  simp [run, hmk, hms, runLoop]

/-- Witness for C9: the script's constants with the list emptied. -/
theorem empty_list_run_witness :
    run emptyConfig okTrue fs0Empty =
      ([Step.evMakedirs (splitPath DEST_DIR), Step.evPrint allDoneMsg], fsAfterMk, true) :=
  empty_list_run emptyConfig okTrue fs0Empty fsAfterMk rfl (by decide)

/-- C10: the loop performs no deduplication: on a fully successful run the
collaborator is invoked exactly once per occurrence in the artifact list, in
order — so a name listed twice is retrieved twice. -/
theorem calls_once_per_occurrence (cfg : Config) (o : Oracle) (fs0 fs1 : FS)
    (hmk : makedirs fs0 (splitPath cfg.dest_dir) = some fs1)
    (hok : ∀ i, i < cfg.models.length → o.ok i = true) :
    downloadCalls (run cfg o fs0).1 =
      cfg.models.map fun m =>
        Step.evDownload cfg.repo_id (m ++ "/**") cfg.dest_dir false := by
  show downloadCalls (run cfg o fs0).1 = cfg.models.map (downloadCall cfg)
  exact run_calls_allOk cfg o fs0 fs1 hmk hok

/-- Witness for C10: a list repeating one artifact name produces two
identical collaborator calls. -/
theorem calls_once_per_occurrence_witness :
    downloadCalls (run dupConfig okTrue fs0Empty).1 =
      dupConfig.models.map fun m =>
        Step.evDownload dupConfig.repo_id (m ++ "/**") dupConfig.dest_dir false :=
  calls_once_per_occurrence dupConfig okTrue fs0Empty fsAfterMk (by decide) (fun _ _ => rfl)

end DownloadModels
